import Mathlib

/-!
Verification of the scanserv-rs core: a shallow embedding of the
asset-path allocator, the scan job executor, the device catalog parsing,
the rotation mutation and the schema migration runner, together with
theorems about the properties these components are specified to have.

Conventions of the embedding:
* Rust strings are Lean `String`s; string algorithms are written over
  `String.data` (`List Char`) with structural recursion so that every
  definition evaluates inside the kernel.
* The filesystem is a pure value: a list of existing file paths plus a
  list of existing directories.
* Machine integers (`i32`) are embedded as `Int`; the only arithmetic
  performed on them in the modelled code (`% 360`, `+ 360`, counters)
  stays far away from the `i32` range, so no wrap-around is modelled.
* Fallible operations return `Option`/`Except`; a Rust `unwrap` panic is
  an `Except.error`.
-/

namespace ScanServ

/-- Decimal digit character (`0`–`9`), as produced by integer formatting. -/
def digitChar (d : Nat) : Char := Char.ofNat (48 + d)

/-- Little-endian decimal digits of `n`, with explicit fuel so that the
definition is structural and evaluates inside the kernel.  With fuel
`> n` this is the ordinary decimal digit expansion. -/
def decDigitsF : Nat → Nat → List Nat
  | 0, _ => []
  | f + 1, n => if n < 10 then [n] else n % 10 :: decDigitsF f (n / 10)

/-- Decimal rendering of a natural number, mirroring Rust's `Display`
formatting of unsigned integers (used by `format!` in the source). -/
def natRepr (n : Nat) : String :=
  String.mk (((decDigitsF (n + 1) n).map digitChar).reverse)

/-- Decimal rendering of an `i32`, mirroring `i32::to_string`. -/
def intRepr (i : Int) : String :=
  if i < 0 then "-" ++ natRepr i.natAbs else natRepr i.toNat

/-- Value of a little-endian digit list, used to invert `decDigitsF`. -/
def ofDigits : List Nat → Nat
  | [] => 0
  | d :: ds => d + 10 * ofDigits ds

theorem decDigitsF_eval : ∀ f n, n < f →
    ofDigits (decDigitsF f n) = n ∧ (∀ d ∈ decDigitsF f n, d < 10) ∧
      decDigitsF f n ≠ [] := by
  intro f
  induction f with
  | zero => intro n hn; omega
  | succ f ih =>
    intro n hn
    by_cases h10 : n < 10
    · refine ⟨?_, ?_, ?_⟩ <;> simp [decDigitsF, h10, ofDigits]
    · have hpos : 0 < n := by omega
      have hdiv : n / 10 < f := by
        have h1 : n / 10 < n := Nat.div_lt_self hpos (by omega)
        omega
      obtain ⟨hval, hlt, _⟩ := ih (n / 10) hdiv
      refine ⟨?_, ?_, ?_⟩
      · simp only [decDigitsF, if_neg h10, ofDigits, hval]
        omega
      · intro d hd
        simp only [decDigitsF, if_neg h10, List.mem_cons] at hd
        rcases hd with h | h
        · omega
        · exact hlt d h
      · simp [decDigitsF, if_neg h10]

theorem digitChar_inj : ∀ d1 < 10, ∀ d2 < 10,
    digitChar d1 = digitChar d2 → d1 = d2 := by decide

theorem map_digitChar_inj : ∀ l1 l2 : List Nat, (∀ d ∈ l1, d < 10) →
    (∀ d ∈ l2, d < 10) → l1.map digitChar = l2.map digitChar → l1 = l2 := by
  intro l1
  induction l1 with
  | nil => intro l2 _ _ h; cases l2 <;> simp_all
  | cons a as ih =>
    intro l2 h1 h2 h
    cases l2 with
    | nil => simp at h
    | cons b bs =>
      simp only [List.map_cons, List.cons.injEq] at h
      have ha : a < 10 := h1 a (by simp)
      have hb : b < 10 := h2 b (by simp)
      have hab : a = b := digitChar_inj a ha b hb h.1
      have : as = bs := ih bs (fun d hd => h1 d (by simp [hd]))
        (fun d hd => h2 d (by simp [hd])) h.2
      simp [hab, this]

theorem natRepr_inj : ∀ m n, natRepr m = natRepr n → m = n := by
  intro m n h
  have hdata : (((decDigitsF (m + 1) m).map digitChar).reverse) =
      (((decDigitsF (n + 1) n).map digitChar).reverse) := by
    simpa [natRepr] using congrArg String.data h
  have hmap : (decDigitsF (m + 1) m).map digitChar =
      (decDigitsF (n + 1) n).map digitChar := by
    have := congrArg List.reverse hdata
    simpa using this
  obtain ⟨hm, hmlt, _⟩ := decDigitsF_eval (m + 1) m (by omega)
  obtain ⟨hn, hnlt, _⟩ := decDigitsF_eval (n + 1) n (by omega)
  have hdig : decDigitsF (m + 1) m = decDigitsF (n + 1) n :=
    map_digitChar_inj _ _ hmlt hnlt hmap
  calc m = ofDigits (decDigitsF (m + 1) m) := hm.symm
    _ = ofDigits (decDigitsF (n + 1) n) := by rw [hdig]
    _ = n := hn

theorem natRepr_ne_nil (n : Nat) : (natRepr n).data ≠ [] := by
  obtain ⟨_, _, hne⟩ := decDigitsF_eval (n + 1) n (by omega)
  simp [natRepr]
  intro h
  exact hne h

/-! ### The asset path allocator

`RealScannerManager::complete_scan` / `MockScannerManager::complete_scan`
(src/scanners.rs) allocate the output path with this loop:

    loop {
        let filename = if counter == 0 { format!("{}.png", base_name) }
                       else { format!("{}_{}.png", base_name, counter) };
        file_path = Path::new("scans").join(&filename) ...;
        let full_path = Path::new(&assets_dir.0).join(&file_path);
        if !full_path.exists() { break; }
        counter += 1;
    }
-/

/-- The filename tried for counter `k`: `<base>.png` for `k = 0`,
`<base>_<k>.png` otherwise. -/
def candidateName (base : String) (k : Nat) : String :=
  if k = 0 then base ++ ".png" else base ++ "_" ++ natRepr k ++ ".png"

/-- The relative asset path tried for counter `k`
(`Path::new("scans").join(&filename)`). -/
def scanRelPath (base : String) (k : Nat) : String :=
  "scans/" ++ candidateName base k

/-- The on-disk path of a relative asset path
(`Path::new(&assets_dir.0).join(&file_path)`). -/
def diskPath (assetsDir rel : String) : String := assetsDir ++ "/" ++ rel

theorem candidateName_inj (base : String) :
    ∀ i j, candidateName base i = candidateName base j → i = j := by
  have hlen : ∀ k, k ≠ 0 →
      (candidateName base k).data.length = base.data.length + 5 +
        (natRepr k).data.length := by
    intro k hk
    simp [candidateName, hk, String.data_append, List.length_append]
    omega
  have hdata : ∀ k, k ≠ 0 → (candidateName base k).data =
      (base.data ++ ('_' :: (natRepr k).data)) ++ ".png".data := by
    intro k hk
    simp [candidateName, hk, String.data_append]
  intro i j h
  by_cases hi : i = 0 <;> by_cases hj : j = 0
  · omega
  · exfalso
    have h1 := hlen j hj
    have hrep := natRepr_ne_nil j
    have h0 : (candidateName base i).data.length = base.data.length + 4 := by
      simp [candidateName, hi, String.data_append, List.length_append]
    have : (candidateName base i).data.length =
        (candidateName base j).data.length := by rw [h]
    have hr : 0 < (natRepr j).data.length := List.length_pos.mpr hrep
    omega
  · exfalso
    have h1 := hlen i hi
    have hrep := natRepr_ne_nil i
    have h0 : (candidateName base j).data.length = base.data.length + 4 := by
      simp [candidateName, hj, String.data_append, List.length_append]
    have : (candidateName base i).data.length =
        (candidateName base j).data.length := by rw [h]
    have hr : 0 < (natRepr i).data.length := List.length_pos.mpr hrep
    omega
  · have hdi := hdata i hi
    have hdj := hdata j hj
    have heq : (base.data ++ ('_' :: (natRepr i).data)) ++ ".png".data =
        (base.data ++ ('_' :: (natRepr j).data)) ++ ".png".data := by
      rw [← hdi, ← hdj, h]
    have heq2 : base.data ++ ('_' :: (natRepr i).data) =
        base.data ++ ('_' :: (natRepr j).data) :=
      List.append_cancel_right heq
    have heq3 : '_' :: (natRepr i).data = '_' :: (natRepr j).data :=
      List.append_cancel_left heq2
    have heq4 : (natRepr i).data = (natRepr j).data := by
      simpa using heq3
    have : natRepr i = natRepr j := by
      cases hni : natRepr i
      cases hnj : natRepr j
      simp_all
    exact natRepr_inj i j this

theorem scanRelPath_inj (base : String) :
    ∀ i j, scanRelPath base i = scanRelPath base j → i = j := by
  intro i j h
  apply candidateName_inj base
  have := congrArg String.data h
  simp only [scanRelPath, String.data_append] at this
  have h2 := List.append_cancel_left this
  cases hci : candidateName base i
  cases hcj : candidateName base j
  simp_all

theorem diskPath_scanRelPath_inj (assetsDir base : String) :
    ∀ i j, diskPath assetsDir (scanRelPath base i) =
      diskPath assetsDir (scanRelPath base j) → i = j := by
  intro i j h
  apply scanRelPath_inj base
  have := congrArg String.data h
  simp only [diskPath, String.data_append] at this
  have h2 := List.append_cancel_left (List.append_cancel_left this)
  cases hci : scanRelPath base i
  cases hcj : scanRelPath base j
  simp_all

/-- The allocation loop of `complete_scan`, with fuel.  `k` is the value of
the `counter` variable; the loop body checks whether the candidate path for
the current counter exists on disk and, if so, retries with `counter + 1`. -/
def allocateAux (assetsDir base : String) (files : List String) :
    Nat → Nat → Option String
  | 0, _ => none
  | f + 1, k =>
    let rel := scanRelPath base k
    if diskPath assetsDir rel ∈ files then
      allocateAux assetsDir base files f (k + 1)
    else
      some rel

/-- The allocator of `complete_scan`: starting from `counter = 0`, return the
first candidate whose disk path does not exist.  The fuel `files.length + 1`
is provably enough (`allocatePath_total`), so this equals the unbounded
source loop. -/
def allocatePath (assetsDir base : String) (files : List String) :
    Option String :=
  allocateAux assetsDir base files (files.length + 1) 0

theorem allocateAux_none (assetsDir base : String) (files : List String) :
    ∀ f k, allocateAux assetsDir base files f k = none →
      ∀ j, j < f → diskPath assetsDir (scanRelPath base (k + j)) ∈ files := by
  intro f
  induction f with
  | zero => intro k _ j hj; omega
  | succ f ih =>
    intro k h j hj
    by_cases hmem : diskPath assetsDir (scanRelPath base k) ∈ files
    · cases j with
      | zero => simpa using hmem
      | succ j =>
        have h2 : allocateAux assetsDir base files f (k + 1) = none := by
          simpa [allocateAux, hmem] using h
        have := ih (k + 1) h2 j (by omega)
        simpa [Nat.add_assoc, Nat.add_comm 1 j] using this
    · simp [allocateAux, hmem] at h

theorem allocateAux_some (assetsDir base : String) (files : List String) :
    ∀ f k rel, allocateAux assetsDir base files f k = some rel →
      ∃ j, j < f ∧ rel = scanRelPath base (k + j) ∧
        diskPath assetsDir rel ∉ files ∧
        ∀ i, i < j → diskPath assetsDir (scanRelPath base (k + i)) ∈ files := by
  intro f
  induction f with
  | zero => intro k rel h; simp [allocateAux] at h
  | succ f ih =>
    intro k rel h
    by_cases hmem : diskPath assetsDir (scanRelPath base k) ∈ files
    · have h2 : allocateAux assetsDir base files f (k + 1) = some rel := by
        simpa [allocateAux, hmem] using h
      obtain ⟨j, hj, hrel, hout, hall⟩ := ih (k + 1) rel h2
      refine ⟨j + 1, by omega, ?_, hout, ?_⟩
      · simpa [Nat.add_assoc, Nat.add_comm 1 j] using hrel
      · intro i hi
        cases i with
        | zero => simpa using hmem
        | succ i =>
          have := hall i (by omega)
          simpa [Nat.add_assoc, Nat.add_comm 1 i] using this
    · have hrel : rel = scanRelPath base k := by
        have := h
        simp only [allocateAux, if_neg hmem] at this
        exact (Option.some.injEq _ _ ▸ this).symm
      refine ⟨0, by omega, by simpa using hrel, ?_, by omega⟩
      rw [hrel]
      exact hmem

theorem nodup_length_le {α : Type} [DecidableEq α] (l l' : List α)
    (h : l.Nodup) (h2 : l ⊆ l') : l.length ≤ l'.length := by
  calc l.length = l.toFinset.card := (List.toFinset_card_of_nodup h).symm
    _ ≤ l'.toFinset.card := Finset.card_le_card (by
        intro x hx
        simp only [List.mem_toFinset] at hx ⊢
        exact h2 hx)
    _ ≤ l'.length := List.toFinset_card_le l'

theorem allocatePath_total (assetsDir base : String) (files : List String) :
    ∃ rel, allocatePath assetsDir base files = some rel := by
  cases halloc : allocatePath assetsDir base files with
  | some rel => exact ⟨rel, rfl⟩
  | none =>
    exfalso
    have hall := allocateAux_none assetsDir base files (files.length + 1) 0
      halloc
    set L : List String := (List.range (files.length + 1)).map
      (fun j => diskPath assetsDir (scanRelPath base j)) with hL
    have hnodup : L.Nodup := by
      refine List.Nodup.map ?_ (List.nodup_range _)
      intro i j hij
      exact diskPath_scanRelPath_inj assetsDir base i j hij
    have hsub : L ⊆ files := by
      intro x hx
      simp only [hL, List.mem_map, List.mem_range] at hx
      obtain ⟨j, hj, rfl⟩ := hx
      simpa using hall j hj
    have hlen : L.length = files.length + 1 := by simp [hL]
    have := nodup_length_le L files hnodup hsub
    omega

/-- Claim C2: the allocator returns the first candidate, in the order
`<base>.png`, `<base>_1.png`, `<base>_2.png`, …, whose disk path does not
exist in the current set of files; in particular the returned path does not
exist on disk and every candidate with a smaller suffix does. -/
theorem allocatePath_first_free (assetsDir base : String)
    (files : List String) :
    ∃ k, allocatePath assetsDir base files = some (scanRelPath base k) ∧
      diskPath assetsDir (scanRelPath base k) ∉ files ∧
      ∀ j, j < k → diskPath assetsDir (scanRelPath base j) ∈ files := by
  obtain ⟨rel, hrel⟩ := allocatePath_total assetsDir base files
  obtain ⟨j, _, hrelEq, hout, hall⟩ :=
    allocateAux_some assetsDir base files (files.length + 1) 0 rel hrel
  refine ⟨j, ?_, ?_, ?_⟩
  · rw [hrel, hrelEq]; simp
  · have h0 : rel = scanRelPath base j := by simpa using hrelEq
    rw [← h0]
    exact hout
  · intro i hi
    simpa using hall i hi

/-! ### Character-list string helpers

Structural models of the Rust string operations used by the source
(`split`, `rsplit_once`, `lines`, `contains`), written over `List Char`
so that they evaluate inside the kernel. -/

/-- Rust `str::split(sep)` for a one-character separator: splitting an
empty string yields one empty piece, and separators delimit pieces. -/
def splitCh (sep : Char) : List Char → List (List Char)
  | [] => [[]]
  | c :: cs =>
    let r := splitCh sep cs
    if c = sep then [] :: r
    else
      match r with
      | [] => [[c]]
      | h :: t => (c :: h) :: t

/-- Join pieces back with a one-character separator. -/
def joinWith (sep : Char) : List (List Char) → List Char
  | [] => []
  | [l] => l
  | l :: ls => l ++ sep :: joinWith sep ls

/-- The part of a path before its last `/`, or `[]` when there is no `/`
(Rust `rsplit_once('/').map(|(dir, _)| dir).unwrap_or("")`). -/
def dirPartOf (s : List Char) : List Char :=
  let parts := splitCh '/' s
  if parts.length ≤ 1 then [] else joinWith '/' parts.dropLast

/-- The last `/`-separated component of a path
(Rust `split('/').last().unwrap()`). -/
def lastComponent (s : List Char) : List Char :=
  (splitCh '/' s).getLastD []

/-- Parent directory of a path, as a `String`. -/
def parentDirOf (p : String) : String := String.mk (dirPartOf p.data)

/-! ### The scan record (src/scans.rs) -/

/-- The `Scan` record of src/scans.rs.  Timestamps are abstract integers;
scan parameters are an association list. -/
structure Scan where
  id : Option Int
  status : String
  scannedAt : Int
  scanner : String
  scanParameters : List (String × String)
  path : String
  group : Option Int
  rotation : Int
  cropCoordinates : Option String
  originalPath : Option String
  editedPath : Option String
deriving Repr, DecidableEq

/-- Mirror of `Scan::new` (src/scans.rs lines 118–140).  Note that it initialises
`original_path` to `Some` of the creation-time `path` argument. -/
def Scan.new (status path scanner : String)
    (scanParameters : List (String × String)) (scannedAt : Int) : Scan :=
  { id := none
    status := status
    path := path
    scanner := scanner
    scanParameters := scanParameters
    scannedAt := scannedAt
    group := none
    rotation := 0
    cropCoordinates := none
    originalPath := some path
    editedPath := none }

/-! ### A pure filesystem model -/

/-- A filesystem value: the list of existing files and the list of
existing directories, both as full path strings. -/
structure Fs where
  files : List String
  dirs : List String
deriving Repr, DecidableEq

def Fs.empty : Fs := ⟨[], []⟩

/-- Model of `Path::exists` for a file path. -/
def Fs.fileExists (fs : Fs) (p : String) : Bool := fs.files.contains p

/-- Model of `std::fs::create_dir_all`. -/
def Fs.mkdirAll (fs : Fs) (d : String) : Fs := ⟨fs.files, d :: fs.dirs⟩

/-- Model of `std::fs::File::create`: succeeds when the parent directory exists. -/
def Fs.createFile (fs : Fs) (p : String) : Option Fs :=
  if fs.dirs.contains (parentDirOf p) then some ⟨p :: fs.files, fs.dirs⟩
  else none

/-- Model of `std::fs::copy`: succeeds when the source file and the destination's
parent directory exist. -/
def Fs.copyFile (fs : Fs) (src dst : String) : Option Fs :=
  if fs.files.contains src ∧ fs.dirs.contains (parentDirOf dst) then
    some ⟨dst :: fs.files, fs.dirs⟩
  else none

/-- Model of `std::fs::read_dir`: `none` when the directory does not exist,
otherwise the entries (files directly inside it, as full paths). -/
def Fs.readDir (fs : Fs) (d : String) : Option (List String) :=
  if fs.dirs.contains d then
    some (fs.files.filter (fun p => parentDirOf p = d))
  else none

/-! ### `complete_scan` (src/scanners.rs)

Both `RealScannerManager::complete_scan` (lines 108–170) and
`MockScannerManager::complete_scan` (lines 202–262) contain the same
base-name computation and allocation loop, followed by the
`original_path` / `path` update and a save. -/

/-- The base name used for allocation: the stem (substring before the
first `.`) of the final component of `original_path` when that field is
set, else the decimal scan id. -/
def scanBaseName (scan : Scan) (scanId : Int) : String :=
  match scan.originalPath with
  | some op =>
    let filename := lastComponent op.data
    let parts := splitCh '.' filename
    String.mk (parts.headD [])
  | none => intRepr scanId

/-- The record update performed by `complete_scan` before it invokes the
driver: allocate a fresh path, set `original_path` when unset, always set
`path`, save.  (`allocatePath` is total by `allocatePath_total`, so the
`Option.getD` default is never used.) -/
def completeScanUpdate (scan : Scan) (scanId : Int) (assetsDir : String)
    (fs : Fs) : Scan :=
  let base := scanBaseName scan scanId
  let filePath := (allocatePath assetsDir base fs.files).getD ""
  let withOrig :=
    match scan.originalPath with
    | none => { scan with originalPath := some filePath }
    | some _ => scan
  { withOrig with path := filePath }

/-- Mirror of `MockScannerManager::do_mock_scan` (src/scanners.rs lines 397–447):
copy a pseudo-random sample image (or create an empty placeholder) to the
allocated path, then persist COMPLETE or FAILED.  `pick` models the RNG
used by `entries.choose`. -/
def doMockScan (scan : Scan) (assetsDir : String) (fs : Fs) (pick : Nat) :
    Scan × Fs :=
  let scanPath := diskPath assetsDir scan.path
  let samplesDir := assetsDir ++ "/mock_scanner_samples"
  let outcome : Option Fs :=
    match fs.readDir samplesDir with
    | none => fs.createFile scanPath
    | some entries =>
      if entries.isEmpty then
        -- `fs::File::create(&scan_path).ok(); Ok(())`: the result is Ok
        -- even when the create fails.
        some ((fs.createFile scanPath).getD fs)
      else
        match entries.get? (pick % entries.length) with
        | some sample => fs.copyFile sample scanPath
        | none => fs.createFile scanPath
  match outcome with
  | some fs' => ({ scan with status := "COMPLETE" }, fs')
  | none => ({ scan with status := "FAILED" }, fs)

/-- Mirror of `MockScannerManager::complete_scan`: the allocation/update step
followed by `do_mock_scan`.  The returned record is the one persisted by
the final `scan.save`. -/
def mockCompleteScan (scanDb : Scan) (scanId : Int) (assetsDir : String)
    (fs : Fs) (pick : Nat) : Scan × Fs :=
  let s := completeScanUpdate scanDb scanId assetsDir fs
  doMockScan s assetsDir fs pick

/-- The synchronous part of the `scan` mutation (src/schema.rs lines
239–302): create the assets directories, build a record with the
placeholder path `scans/tmp.png` via `Scan::new`, and save it, which
assigns the fresh id `newId`. -/
def submitScan (assetsDir name : String)
    (params : List (String × String)) (scannedAt : Int) (fs : Fs)
    (newId : Int) : Scan × Fs :=
  let fs1 := (fs.mkdirAll assetsDir).mkdirAll (assetsDir ++ "/scans")
  let scan := Scan.new "PENDING" "scans/tmp.png" name params scannedAt
  ({ scan with id := some newId }, fs1)

/-- End-to-end mock pipeline: submit a scan, then run the background
unit of work (`complete_scan` with the mock driver) on the persisted
record. -/
def mockPipeline (assetsDir name : String)
    (params : List (String × String)) (scannedAt : Int) (fs : Fs)
    (newId : Int) (pick : Nat) : Scan × Fs :=
  let sub := submitScan assetsDir name params scannedAt fs newId
  mockCompleteScan sub.1 newId assetsDir sub.2 pick

/-- The record update performed synchronously by the `retry_scan` mutation
(src/schema.rs lines 304–350): reset status to PENDING, update scanner and
parameters, save. -/
def retryScanUpdate (scan : Scan) (name : String)
    (params : List (String × String)) : Scan :=
  { scan with status := "PENDING", scanner := name, scanParameters := params }

/-- A concrete record as persisted after submission, used to instantiate
theorems at concrete inputs. -/
def sampleScan : Scan :=
  { Scan.new "PENDING" "scans/tmp.png" "epson" [] 0 with id := some 1 }

/-! ### `RealScannerManager::do_scan` (src/scanners.rs lines 321–383)

The driver-invocation loop.  `exit k` is the exit code of the `k`-th
`scanimage` invocation (1-indexed).  The trace records each invocation
and the final persisted save. -/

inductive ScanEvent where
  | invoke (attempt : Nat)
  | save (status : String)
deriving Repr, DecidableEq

def isInvoke : ScanEvent → Bool
  | .invoke _ => true
  | _ => false

/-- The retry loop of `do_scan`: `attempts0` is the current value of the
`attempts` variable; the body increments it, invokes the driver, and
breaks when the exit code is 0 or `attempts >= 3`.  The fuel (3 from
`doScan`) never runs out because the break condition fires at
`attempts = 3`. -/
def scanLoop (exit : Nat → Int) : Nat → Nat → Int × List ScanEvent
  | 0, _ => (1, [])
  | fuel + 1, attempts0 =>
    let attempts := attempts0 + 1
    let code := exit attempts
    if code = 0 ∨ attempts ≥ 3 then (code, [ScanEvent.invoke attempts])
    else
      let r := scanLoop exit fuel attempts
      (r.1, ScanEvent.invoke attempts :: r.2)

/-- Mirror of `do_scan`: run the loop, then persist FAILED when the last exit code
is non-zero and COMPLETE otherwise.  The save event is last: the status
is persisted before the background task returns. -/
def doScan (exit : Nat → Int) (scan : Scan) : Scan × List ScanEvent :=
  let r := scanLoop exit 3 0
  let st := if r.1 ≠ 0 then "FAILED" else "COMPLETE"
  ({ scan with status := st }, r.2 ++ [ScanEvent.save st])

theorem scanLoop_eval (exit : Nat → Int) :
    scanLoop exit 3 0 =
      if exit 1 = 0 then (exit 1, [ScanEvent.invoke 1])
      else if exit 2 = 0 then
        (exit 2, [ScanEvent.invoke 1, ScanEvent.invoke 2])
      else
        (exit 3, [ScanEvent.invoke 1, ScanEvent.invoke 2,
          ScanEvent.invoke 3]) := by
  by_cases h1 : exit 1 = 0 <;> by_cases h2 : exit 2 = 0 <;>
    simp [scanLoop, h1, h2]

/-- Claim C3: at most 3 driver invocations; an exit code 0 at the first
succeeding attempt `k` ends the loop with COMPLETE persisted after
exactly `k` invocations; three non-zero exits persist FAILED after
exactly 3 invocations; and the final status is saved as the last action
of the background unit of work. -/
theorem do_scan_retry_budget (exit : Nat → Int) (scan : Scan) :
    ((doScan exit scan).2.filter isInvoke).length ≤ 3 ∧
    (∀ k, 1 ≤ k → k ≤ 3 → exit k = 0 →
      (∀ j, 1 ≤ j → j < k → exit j ≠ 0) →
      (doScan exit scan).1.status = "COMPLETE" ∧
      ((doScan exit scan).2.filter isInvoke).length = k) ∧
    ((∀ k, 1 ≤ k → k ≤ 3 → exit k ≠ 0) →
      (doScan exit scan).1.status = "FAILED" ∧
      ((doScan exit scan).2.filter isInvoke).length = 3) ∧
    (doScan exit scan).2.getLast? =
      some (ScanEvent.save (doScan exit scan).1.status) := by
  by_cases h1 : exit 1 = 0
  · refine ⟨?_, ?_, ?_, ?_⟩
    · simp [doScan, scanLoop_eval, h1, isInvoke]
    · intro k hk1 hk3 hk0 hprev
      have hk : k = 1 := by
        by_contra hne
        exact hprev 1 (by omega) (by omega) h1
      subst hk
      constructor <;> simp [doScan, scanLoop_eval, h1, isInvoke]
    · intro hall
      exact absurd h1 (hall 1 (by omega) (by omega))
    · simp [doScan, scanLoop_eval, h1]
  · by_cases h2 : exit 2 = 0
    · refine ⟨?_, ?_, ?_, ?_⟩
      · simp [doScan, scanLoop_eval, h1, h2, isInvoke]
      · intro k hk1 hk3 hk0 hprev
        have hk : k = 2 := by
          interval_cases k
          · exact absurd hk0 h1
          · rfl
          · exact absurd h2 (hprev 2 (by omega) (by omega))
        subst hk
        constructor <;> simp [doScan, scanLoop_eval, h1, h2, isInvoke]
      · intro hall
        exact absurd h2 (hall 2 (by omega) (by omega))
      · simp [doScan, scanLoop_eval, h1, h2]
    · by_cases h3 : exit 3 = 0
      · refine ⟨?_, ?_, ?_, ?_⟩
        · simp [doScan, scanLoop_eval, h1, h2, h3, isInvoke]
        · intro k hk1 hk3 hk0 hprev
          have hk : k = 3 := by
            interval_cases k
            · exact absurd hk0 h1
            · exact absurd hk0 h2
            · rfl
          subst hk
          constructor <;> simp [doScan, scanLoop_eval, h1, h2, h3, isInvoke]
        · intro hall
          exact absurd h3 (hall 3 (by omega) (by omega))
        · simp [doScan, scanLoop_eval, h1, h2, h3]
      · refine ⟨?_, ?_, ?_, ?_⟩
        · simp [doScan, scanLoop_eval, h1, h2, h3, isInvoke]
        · intro k hk1 hk3 hk0 hprev
          interval_cases k
          · exact absurd hk0 h1
          · exact absurd hk0 h2
          · exact absurd hk0 h3
        · intro hall
          constructor <;> simp [doScan, scanLoop_eval, h1, h2, h3, isInvoke]
        · simp [doScan, scanLoop_eval, h1, h2, h3]

/-- Witness for C3 at a driver that fails once then succeeds. -/
theorem do_scan_retry_budget_witness :
    (doScan (fun n => if n = 2 then 0 else 1) sampleScan).1.status =
        "COMPLETE" ∧
      ((doScan (fun n => if n = 2 then 0 else 1) sampleScan).2.filter
        isInvoke).length = 2 :=
  (do_scan_retry_budget (fun n => if n = 2 then 0 else 1) sampleScan).2.1 2
    (by omega) (by omega) (by decide)
    (by
      intro j hj1 hj2
      have hj : j = 1 := by omega
      subst hj
      decide)

/-! ### Spawn failures in `do_scan`

The source runs `.spawn().ok().unwrap().wait_with_output().await.unwrap()`
and `output.status.code().unwrap()`: a failure to spawn the external
process (or to obtain an exit code) panics the background task.  `spawn k`
is `none` when attempt `k` fails this way. -/

def scanLoopSp (spawn : Nat → Option Int) :
    Nat → Nat → Except (List ScanEvent) (Int × List ScanEvent)
  | 0, _ => .ok (1, [])
  | fuel + 1, attempts0 =>
    let attempts := attempts0 + 1
    match spawn attempts with
    | none => .error [ScanEvent.invoke attempts]
    | some code =>
      if code = 0 ∨ attempts ≥ 3 then .ok (code, [ScanEvent.invoke attempts])
      else
        match scanLoopSp spawn fuel attempts with
        | .error evs => .error (ScanEvent.invoke attempts :: evs)
        | .ok r => .ok (r.1, ScanEvent.invoke attempts :: r.2)

/-- Mirror of `do_scan` with fallible spawning: a spawn failure is a panic
(`Except.error`, carrying the trace so far); nothing is persisted in that
case. -/
def doScanSp (spawn : Nat → Option Int) (scan : Scan) :
    Except (List ScanEvent) (Scan × List ScanEvent) :=
  match scanLoopSp spawn 3 0 with
  | .error evs => .error evs
  | .ok r =>
    let st := if r.1 ≠ 0 then "FAILED" else "COMPLETE"
    .ok ({ scan with status := st }, r.2 ++ [ScanEvent.save st])

/-- Counterexample to claim C4: with a driver binary that cannot be
spawned, the background task panics after the first attempt — the failure
is neither retried nor converted into a persisted FAILED record. -/
theorem spawn_failure_panics :
    doScanSp (fun _ => none) sampleScan =
      Except.error [ScanEvent.invoke 1] := rfl

/-- Claim C4 as amended: a spawn failure at whichever attempt it first
occurs aborts the background task at once: no further attempt is made and
no status is persisted (the task ends in a panic whose trace contains
exactly the invocations so far and no save). -/
theorem spawn_failure_aborts (spawn : Nat → Option Int) (scan : Scan)
    (k : Nat) (hk1 : 1 ≤ k) (hk3 : k ≤ 3)
    (hprev : ∀ j, 1 ≤ j → j < k → ∃ c, spawn j = some c ∧ c ≠ 0)
    (hk : spawn k = none) :
    doScanSp spawn scan =
      Except.error ((List.range' 1 k).map ScanEvent.invoke) := by
  interval_cases k
  · simp [doScanSp, scanLoopSp, hk, List.range']
  · obtain ⟨c1, hc1, hne1⟩ := hprev 1 (by omega) (by omega)
    simp [doScanSp, scanLoopSp, hk, hc1, hne1, List.range']
  · obtain ⟨c1, hc1, hne1⟩ := hprev 1 (by omega) (by omega)
    obtain ⟨c2, hc2, hne2⟩ := hprev 2 (by omega) (by omega)
    simp [doScanSp, scanLoopSp, hk, hc1, hne1, hc2, hne2, List.range']

/-- Witness for the amended C4: two failing exits, then a spawn failure on
the third attempt. -/
theorem spawn_failure_aborts_witness :
    doScanSp (fun j => if j = 3 then none else some 1) sampleScan =
      Except.error [ScanEvent.invoke 1, ScanEvent.invoke 2,
        ScanEvent.invoke 3] := by
  have h := spawn_failure_aborts (fun j => if j = 3 then none else some 1)
    sampleScan 3 (by omega) (by omega)
    (by
      intro j hj1 hj2
      refine ⟨1, ?_, by omega⟩
      interval_cases j <;> decide)
    (by decide)
  simpa [List.range'] using h

/-! ### Claims C1 and C5: the `original_path` life cycle -/

/-- Demonstration for claim C1: submitting a brand-new scan through the
mock driver into an empty assets directory (fresh id 1) completes, but
with `path = "scans/tmp.png"` — the stem of the placeholder path — rather
than the claimed `"scans/1.png"`.  `Scan::new` initialises
`original_path` to the placeholder, so `complete_scan`'s brand-new-scan
branch (base name = job id) is unreachable. -/
theorem mock_scan_uses_placeholder_base :
    (mockPipeline "assets" "mock:scanner" [] 0 Fs.empty 1 0).1.status =
        "COMPLETE" ∧
      (mockPipeline "assets" "mock:scanner" [] 0 Fs.empty 1 0).1.path =
        "scans/tmp.png" ∧
      (mockPipeline "assets" "mock:scanner" [] 0 Fs.empty 1
        0).1.originalPath = some "scans/tmp.png" ∧
      scanRelPath (intRepr 1) 0 = "scans/1.png" ∧
      (mockPipeline "assets" "mock:scanner" [] 0 Fs.empty 1 0).1.path ≠
        "scans/1.png" := by
  decide

/-- Counterexample to claim C5: the record persisted by the `scan`
mutation is still PENDING — no completion, successful or otherwise, has
happened — yet its `original_path` is already set (to the placeholder). -/
theorem original_path_before_any_completion :
    (submitScan "assets" "mock:scanner" [] 0 Fs.empty 1).1.status =
        "PENDING" ∧
      (submitScan "assets" "mock:scanner" [] 0 Fs.empty 1).1.originalPath =
        some "scans/tmp.png" := by
  decide

theorem doMockScan_originalPath (scan : Scan) (assetsDir : String)
    (fs : Fs) (pick : Nat) :
    (doMockScan scan assetsDir fs pick).1.originalPath =
      scan.originalPath := by
  unfold doMockScan
  dsimp only
  split <;> rfl

/-- Claim C5 as amended: `original_path` is set exactly once, at record
creation (to the creation-time path), not on first successful completion;
once set it is never overwritten: the allocation step, the mock driver,
the real driver and the retry mutation all leave it unchanged, while the
allocation step updates `path` to the newly allocated value. -/
theorem original_path_never_overwritten (scan : Scan) (p : String)
    (scanId : Int) (assetsDir name : String) (fs : Fs) (pick : Nat)
    (params : List (String × String)) (exit : Nat → Int)
    (h : scan.originalPath = some p) :
    (∀ st pa sc pr t, (Scan.new st pa sc pr t).originalPath = some pa) ∧
    (completeScanUpdate scan scanId assetsDir fs).originalPath = some p ∧
    (completeScanUpdate scan scanId assetsDir fs).path =
      (allocatePath assetsDir (scanBaseName scan scanId) fs.files).getD
        "" ∧
    (doMockScan scan assetsDir fs pick).1.originalPath = some p ∧
    (doScan exit scan).1.originalPath = some p ∧
    (retryScanUpdate scan name params).originalPath = some p := by
  refine ⟨fun _ _ _ _ _ => rfl, ?_, ?_, ?_, h, h⟩
  · simp [completeScanUpdate, h]
  · simp [completeScanUpdate, h]
  · rw [doMockScan_originalPath]
    exact h

/-- Witness for the amended C5 at the concrete post-submission record. -/
theorem original_path_never_overwritten_witness :
    (completeScanUpdate sampleScan 1 "assets" Fs.empty).originalPath =
        some "scans/tmp.png" ∧
      (retryScanUpdate sampleScan "canon" []).originalPath =
        some "scans/tmp.png" :=
  ⟨(original_path_never_overwritten sampleScan "scans/tmp.png" 1 "assets"
      "canon" Fs.empty 0 [] (fun _ => 1) rfl).2.1,
   (original_path_never_overwritten sampleScan "scans/tmp.png" 1 "assets"
      "canon" Fs.empty 0 [] (fun _ => 1) rfl).2.2.2.2.2⟩

/-! ### `MutationRoot::rotate_scan` (src/schema.rs lines 474–487) -/

/-- The normalization `(rotation % 360 + 360) % 360`, with Rust's
truncated `%` on `i32` embedded as `Int.tmod`.  (`rotation % 360` lies in
(-360, 360), so adding 360 cannot overflow an `i32`.) -/
def rotateNormalize (rotation : Int) : Int :=
  (rotation.tmod 360 + 360).tmod 360

/-- The record update persisted by `rotate_scan` on a loaded record. -/
def rotateScan (scan : Scan) (rotation : Int) : Scan :=
  { scan with rotation := rotateNormalize rotation }

/-- Demonstration for claim C8: `rotateScan` at 45 persists rotation 45,
which is not one of 0, 90, 180, 270 — although the code's own comment
says "Ensure rotation is in 90-degree increments (0, 90, 180, 270)", it
only reduces the argument into [0, 360). -/
theorem rotate_scan_45_not_right_angle :
    (rotateScan sampleScan 45).rotation = 45 ∧
      ¬((rotateScan sampleScan 45).rotation = 0 ∨
        (rotateScan sampleScan 45).rotation = 90 ∨
        (rotateScan sampleScan 45).rotation = 180 ∨
        (rotateScan sampleScan 45).rotation = 270) := by
  decide

/-! ### The device catalog (src/scanners.rs lines 21–106)

`RealScannerManager::force_list_scanners` matches each line of the
`scanimage --list-devices` output against the regex

    device `([^']*)' is a (.*)$

(note the backtick before the device name), collects the captures, and
replaces the cached list and the refresh instant. -/

structure ScannerInfo where
  name : String
  description : String
deriving Repr, DecidableEq

/-- The apostrophe character, written via its code point. -/
def apos : Char := Char.ofNat 39

/-- Try to match the regex at the current position: literal ``device ` ``,
then the longest apostrophe-free name, then `' is a `, then the rest of
the line as description. -/
def matchDeviceAt (l : List Char) : Option ScannerInfo :=
  if l.take 8 = ("device " ++ String.mk [Char.ofNat 96]).data then
    let rest := l.drop 8
    let name := rest.takeWhile (fun c => c ≠ apos)
    let rest2 := rest.dropWhile (fun c => c ≠ apos)
    if rest2.take 7 = (String.mk [apos] ++ " is a ").data then
      some ⟨String.mk name, String.mk (rest2.drop 7)⟩
    else none
  else none

/-- Leftmost regex match within a line (`Regex::captures` semantics for
this pattern: try each start position from the left). -/
def findDevice : List Char → Option ScannerInfo
  | [] => none
  | c :: cs =>
    match matchDeviceAt (c :: cs) with
    | some r => some r
    | none => findDevice cs

/-- Rust `str::lines`: split on newline, dropping one trailing empty
piece and a trailing carriage return on each line. -/
def linesOf (s : String) : List String :=
  let parts := splitCh (Char.ofNat 10) s.data
  let parts := if parts.getLastD [] = [] then parts.dropLast else parts
  parts.map (fun p =>
    if p.getLastD ' ' = Char.ofNat 13 then String.mk p.dropLast
    else String.mk p)

/-- Parse the whole `scanimage --list-devices` output: one optional
capture per line, non-matching lines ignored. -/
def parseScannerOutput (out : String) : List ScannerInfo :=
  (linesOf out).filterMap (fun line => findDevice line.data)

/-- Device catalog state: the cached list and the last refresh time,
updated together. -/
structure CatalogState where
  cached : List ScannerInfo
  lastRefreshed : Int
deriving Repr, DecidableEq

/-- Mirror of `force_list_scanners`: parse, replace the cache and the timestamp,
return the parsed list. -/
def forceListScanners (_st : CatalogState) (output : String) (now : Int) :
    List ScannerInfo × CatalogState :=
  let results := parseScannerOutput output
  (results, { cached := results, lastRefreshed := now })

/-- The line pattern as the spec words it — `device '<name>' is a
<description>` with a straight apostrophe on both sides of the name —
used to compare the specified pattern with the implemented one. -/
def specMatchDeviceAt (l : List Char) : Option ScannerInfo :=
  if l.take 8 = ("device " ++ String.mk [apos]).data then
    let rest := l.drop 8
    let name := rest.takeWhile (fun c => c ≠ apos)
    let rest2 := rest.dropWhile (fun c => c ≠ apos)
    if rest2.take 7 = (String.mk [apos] ++ " is a ").data then
      some ⟨String.mk name, String.mk (rest2.drop 7)⟩
    else none
  else none

/-- Leftmost spec-pattern match within a line. -/
def specFindDevice : List Char → Option ScannerInfo
  | [] => none
  | c :: cs =>
    match specMatchDeviceAt (c :: cs) with
    | some r => some r
    | none => specFindDevice cs

/-- A device line in the form the spec's pattern describes. -/
def specFormLine : String :=
  "device " ++ String.mk [apos] ++ "epson2:net:10.0.0.4" ++
    String.mk [apos] ++ " is a Epson PID 08C5"

/-- Counterexample to claim C9: a line that matches the spec's pattern
`device '<name>' is a <description>` is ignored by the implementation,
whose pattern requires a backtick before the name. -/
theorem device_pattern_uses_backtick :
    parseScannerOutput specFormLine = [] ∧
      specFindDevice specFormLine.data =
        some ⟨"epson2:net:10.0.0.4", "Epson PID 08C5"⟩ := by
  decide

theorem matchDeviceAt_sound (l : List Char) (info : ScannerInfo)
    (h : matchDeviceAt l = some info) :
    l = ("device " ++ String.mk [Char.ofNat 96]).data ++ info.name.data ++
      (String.mk [apos] ++ " is a ").data ++ info.description.data := by
  unfold matchDeviceAt at h
  by_cases h8 : l.take 8 = ("device " ++ String.mk [Char.ofNat 96]).data
  · rw [if_pos h8] at h
    by_cases h7 : ((l.drop 8).dropWhile (fun c => c ≠ apos)).take 7 =
        (String.mk [apos] ++ " is a ").data
    · rw [if_pos h7] at h
      have hinfo : info =
          ⟨String.mk ((l.drop 8).takeWhile (fun c => c ≠ apos)),
            String.mk (((l.drop 8).dropWhile (fun c => c ≠ apos)).drop 7)⟩ :=
        (Option.some.injEq _ _ ▸ h).symm
      subst hinfo
      calc l = l.take 8 ++ l.drop 8 := (List.take_append_drop 8 l).symm
        _ = l.take 8 ++ ((l.drop 8).takeWhile (fun c => c ≠ apos) ++
              (l.drop 8).dropWhile (fun c => c ≠ apos)) := by
            rw [List.takeWhile_append_dropWhile]
        _ = l.take 8 ++ ((l.drop 8).takeWhile (fun c => c ≠ apos) ++
              (((l.drop 8).dropWhile (fun c => c ≠ apos)).take 7 ++
               ((l.drop 8).dropWhile (fun c => c ≠ apos)).drop 7)) := by
            rw [List.take_append_drop]
        _ = _ := by rw [h8, h7]; simp [List.append_assoc]
    · rw [if_neg h7] at h
      exact absurd h (by simp)
  · rw [if_neg h8] at h
    exact absurd h (by simp)

theorem findDevice_sound : ∀ (l : List Char) (info : ScannerInfo),
    findDevice l = some info →
    ∃ pre : List Char,
      l = pre ++ ("device " ++ String.mk [Char.ofNat 96]).data ++
        info.name.data ++ (String.mk [apos] ++ " is a ").data ++
        info.description.data := by
  intro l
  induction l with
  | nil => intro info h; simp [findDevice] at h
  | cons c cs ih =>
    intro info h
    unfold findDevice at h
    cases hm : matchDeviceAt (c :: cs) with
    | some r =>
      rw [hm] at h
      have hr : r = info := by simpa using h
      subst hr
      refine ⟨[], ?_⟩
      simpa [List.append_assoc] using matchDeviceAt_sound (c :: cs) r hm
    | none =>
      rw [hm] at h
      obtain ⟨pre, hpre⟩ := ih info h
      exact ⟨c :: pre, by simp [hpre, List.append_assoc]⟩

/-- Claim C9 as amended: `forceRefresh` replaces the cached list and the
refresh timestamp with the parse result and the current instant; empty
output parses to the empty list (not an error); and every returned device
comes from an output line containing the implemented pattern
``device `<name>' is a <description>`` — with a backtick, not an
apostrophe, before the name; all other lines are ignored. -/
theorem force_list_scanners_spec (st : CatalogState) (output : String)
    (now : Int) :
    (forceListScanners st output now).2.cached =
        (forceListScanners st output now).1 ∧
      (forceListScanners st output now).2.lastRefreshed = now ∧
      parseScannerOutput "" = [] ∧
      ∀ info ∈ (forceListScanners st output now).1,
        ∃ line ∈ linesOf output, ∃ pre : List Char,
          line.data = pre ++ ("device " ++ String.mk [Char.ofNat 96]).data ++
            info.name.data ++ (String.mk [apos] ++ " is a ").data ++
            info.description.data := by
  refine ⟨rfl, rfl, by decide, ?_⟩
  intro info hinfo
  have hmem : info ∈ parseScannerOutput output := hinfo
  simp only [parseScannerOutput, List.mem_filterMap] at hmem
  obtain ⟨line, hline, hfind⟩ := hmem
  obtain ⟨pre, hpre⟩ := findDevice_sound line.data info hfind
  exact ⟨line, hline, pre, hpre⟩

/-- A device line in the form the implementation's pattern accepts. -/
def realFormLine : String :=
  "device " ++ String.mk [Char.ofNat 96] ++ "epson2:net:10.0.0.4" ++
    String.mk [apos] ++ " is a Epson PID 08C5"

/-- Witness for the amended C9 at a concrete two-line output: one noise
line, one matching line. -/
theorem force_list_scanners_spec_witness :
    (forceListScanners ⟨[], 0⟩ ("noise" ++ String.mk [Char.ofNat 10] ++
          realFormLine) 5).2.cached =
        (forceListScanners ⟨[], 0⟩ ("noise" ++ String.mk [Char.ofNat 10] ++
          realFormLine) 5).1 ∧
      (forceListScanners ⟨[], 0⟩ ("noise" ++ String.mk [Char.ofNat 10] ++
          realFormLine) 5).2.lastRefreshed = 5 ∧
      (∃ line ∈ linesOf ("noise" ++ String.mk [Char.ofNat 10] ++
          realFormLine), ∃ pre : List Char,
        line.data = pre ++ ("device " ++ String.mk [Char.ofNat 96]).data ++
          ("epson2:net:10.0.0.4" : String).data ++
          (String.mk [apos] ++ " is a ").data ++
          ("Epson PID 08C5" : String).data) := by
  have h := force_list_scanners_spec ⟨[], 0⟩
    ("noise" ++ String.mk [Char.ofNat 10] ++ realFormLine) 5
  refine ⟨h.1, h.2.1, ?_⟩
  exact h.2.2.2 ⟨"epson2:net:10.0.0.4", "Epson PID 08C5"⟩ (by decide)

/-! ### The schema migration runner (src/migrations.rs)

`migrate` reads `next_migration_idx` (initialising it to 0 when the meta
row is absent) and then, for each migration in `MIGRATIONS[next..]` in
order: copies the database file to `<path>.pre-<idx>-backup` (the
connection is file-backed — `DuckdbConnectionManager::file` in
src/main.rs — so `conn.path()` is always `Some`; `hasPath` keeps the
source's conditional visible), executes the migration, and persists
`next_migration_idx = idx + 1`.  Stores are abstract (`σ`); a migration
is a store transformer; the trace records backups (with the store
snapshot copied), applications and index updates in order. -/

inductive MigEvent (σ : Type) where
  | backup (tag : Nat) (snapshot : σ)
  | apply (idx : Nat)
  | setIdx (v : Nat)
deriving Repr, DecidableEq

def applyIdxOf {σ : Type} : MigEvent σ → Option Nat
  | .apply i => some i
  | _ => none

def isApplyIdx {σ : Type} (k : Nat) : MigEvent σ → Bool
  | .apply i => i = k
  | _ => false

/-- The `for (idx, migration) in MIGRATIONS[next_migration_idx..]`
loop body, over the remaining migrations.  Returns the event trace, the
final store and the final persisted index. -/
def migrateGo {σ : Type} (hasPath : Bool) :
    List (σ → σ) → Nat → σ → List (MigEvent σ) × σ × Nat
  | [], idx, s => ([], s, idx)
  | m :: rest, idx, s =>
    let evs0 := if hasPath then [MigEvent.backup idx s] else []
    let r := migrateGo hasPath rest (idx + 1) (m s)
    (evs0 ++ MigEvent.apply idx :: MigEvent.setIdx (idx + 1) :: r.1, r.2)

/-- The persisted migration state: the store and `next_migration_idx`. -/
structure MigState (σ : Type) where
  store : σ
  nextIdx : Nat
deriving Repr, DecidableEq

/-- Reading `next_migration_idx`: 0 is inserted when the row is absent. -/
def readNextIdx (stored : Option Nat) : Nat := stored.getD 0

/-- Mirror of `migrate` (src/migrations.rs lines 88–131).  (The Rust slice
`MIGRATIONS[next..]` panics when `next` exceeds the list length; every
state the program itself produces has `next ≤ length`, and `List.drop`
agrees with the slice on that range.) -/
def migrate {σ : Type} (hasPath : Bool) (migs : List (σ → σ))
    (st : MigState σ) : List (MigEvent σ) × MigState σ :=
  let r := migrateGo hasPath (migs.drop st.nextIdx) st.nextIdx st.store
  (r.1, ⟨r.2.1, r.2.2⟩)

/-- The store after applying migrations `a, a+1, …, b-1` to `s`. -/
def applyRange {σ : Type} (migs : List (σ → σ)) (a b : Nat) (s : σ) : σ :=
  ((migs.drop a).take (b - a)).foldl (fun t m => m t) s

theorem migrateGo_spec {σ : Type} :
    ∀ (ms : List (σ → σ)) (idx : Nat) (s : σ),
      (migrateGo true ms idx s).1.filterMap applyIdxOf =
          List.range' idx ms.length ∧
      ∀ k, MigEvent.apply k ∈ (migrateGo true ms idx s).1 →
        idx ≤ k ∧ k < idx + ms.length ∧
        MigEvent.backup k ((ms.take (k - idx)).foldl (fun t m => m t) s) ∈
          (migrateGo true ms idx s).1.takeWhile
            (fun e => !(isApplyIdx k e)) ∧
        MigEvent.setIdx (k + 1) ∈
          (migrateGo true ms idx s).1.dropWhile
            (fun e => !(isApplyIdx k e)) := by
  intro ms
  induction ms with
  | nil =>
    intro idx s
    refine ⟨by simp [migrateGo, List.range'], ?_⟩
    intro k hk
    simp [migrateGo] at hk
  | cons m rest ih =>
    intro idx s
    obtain ⟨ih1, ih2⟩ := ih (idx + 1) (m s)
    have hcons : (migrateGo true (m :: rest) idx s).1 =
        MigEvent.backup idx s :: MigEvent.apply idx ::
          MigEvent.setIdx (idx + 1) ::
          (migrateGo true rest (idx + 1) (m s)).1 := by
      simp [migrateGo]
    constructor
    · rw [hcons]
      simp only [List.filterMap_cons, applyIdxOf, ih1, List.length_cons]
      rw [List.range'_succ]
    · intro k hk
      by_cases hki : k = idx
      · subst hki
        refine ⟨le_refl k, by simp, ?_, ?_⟩
        · rw [hcons]
          rw [List.takeWhile_cons_of_pos (by simp [isApplyIdx]),
            List.takeWhile_cons_of_neg (by simp [isApplyIdx])]
          simp
        · rw [hcons]
          rw [List.dropWhile_cons_of_pos (by simp [isApplyIdx]),
            List.dropWhile_cons_of_neg (by simp [isApplyIdx])]
          simp
      · have hik : idx ≠ k := Ne.symm hki
        have hkrest : MigEvent.apply k ∈
            (migrateGo true rest (idx + 1) (m s)).1 := by
          rw [hcons] at hk
          simp only [List.mem_cons] at hk
          rcases hk with h | h | h | h
          · simp at h
          · simp only [MigEvent.apply.injEq] at h
            exact absurd h hki
          · simp at h
          · exact h
        obtain ⟨hge, hlt, hback, hset⟩ := ih2 k hkrest
        have hsnap : ((m :: rest).take (k - idx)).foldl (fun t m => m t)
            s = (rest.take (k - (idx + 1))).foldl (fun t m => m t)
            (m s) := by
          have hk1 : k - idx = (k - (idx + 1)) + 1 := by omega
          rw [hk1, List.take_succ_cons, List.foldl_cons]
        have hp1 : (!(isApplyIdx k (MigEvent.backup idx s))) = true := by
          simp [isApplyIdx]
        have hp2 : (!(isApplyIdx k (MigEvent.apply idx (σ := σ)))) =
            true := by simp [isApplyIdx, hik]
        have hp3 : (!(isApplyIdx k (MigEvent.setIdx (idx + 1)
            (σ := σ)))) = true := by simp [isApplyIdx]
        refine ⟨by omega, ?_, ?_, ?_⟩
        · simp only [List.length_cons]
          omega
        · rw [hcons, hsnap]
          rw [List.takeWhile_cons_of_pos (p := fun e => !isApplyIdx k e)
              hp1,
            List.takeWhile_cons_of_pos (p := fun e => !isApplyIdx k e) hp2,
            List.takeWhile_cons_of_pos (p := fun e => !isApplyIdx k e) hp3]
          exact List.mem_cons_of_mem _ (List.mem_cons_of_mem _
            (List.mem_cons_of_mem _ hback))
        · rw [hcons]
          rw [List.dropWhile_cons_of_pos (p := fun e => !isApplyIdx k e)
              hp1,
            List.dropWhile_cons_of_pos (p := fun e => !isApplyIdx k e) hp2,
            List.dropWhile_cons_of_pos (p := fun e => !isApplyIdx k e) hp3]
          exact hset

/-- Claim C6: running `migrate` applies exactly the migrations with index
at least `nextMigrationIdx`, in strictly ascending order, each exactly
once; the whole store (as it stands after all previously applied pending
migrations) is backed up under the pending index strictly before that
migration is applied; and `nextMigrationIdx = appliedIndex + 1` is
persisted after each application. -/
theorem migrate_trace_spec {σ : Type} (migs : List (σ → σ))
    (st : MigState σ) :
    (migrate true migs st).1.filterMap applyIdxOf =
        List.range' st.nextIdx (migs.length - st.nextIdx) ∧
      ∀ k, MigEvent.apply k ∈ (migrate true migs st).1 →
        st.nextIdx ≤ k ∧ k < migs.length ∧
        MigEvent.backup k (applyRange migs st.nextIdx k st.store) ∈
          (migrate true migs st).1.takeWhile (fun e => !(isApplyIdx k e)) ∧
        MigEvent.setIdx (k + 1) ∈
          (migrate true migs st).1.dropWhile (fun e => !(isApplyIdx k e))
    := by
  obtain ⟨h1, h2⟩ := migrateGo_spec (migs.drop st.nextIdx) st.nextIdx
    st.store
  constructor
  · simpa [migrate, List.length_drop] using h1
  · intro k hk
    have hk' : MigEvent.apply k ∈ (migrateGo true (migs.drop st.nextIdx)
        st.nextIdx st.store).1 := hk
    obtain ⟨hge, hlt, hback, hset⟩ := h2 k hk'
    have hlen : (migs.drop st.nextIdx).length = migs.length - st.nextIdx :=
      List.length_drop _ _
    refine ⟨hge, by omega, ?_, hset⟩
    simpa [applyRange] using hback

/-- Example migration list used to instantiate the migration theorems. -/
def migsEx : List (Nat → Nat) := [fun n => n + 1, fun n => n * 3]

/-- Witness for C6 on a concrete two-migration store. -/
theorem migrate_trace_spec_witness :
    (migrate true migsEx ⟨0, 0⟩).1.filterMap applyIdxOf = [0, 1] ∧
      MigEvent.backup 1 (applyRange migsEx 0 1 0) ∈
        (migrate true migsEx ⟨0, 0⟩).1.takeWhile
          (fun e => !(isApplyIdx 1 e)) ∧
      MigEvent.setIdx 2 ∈
        (migrate true migsEx ⟨0, 0⟩).1.dropWhile
          (fun e => !(isApplyIdx 1 e)) := by
  have h := migrate_trace_spec migsEx ⟨0, 0⟩
  have hmem : MigEvent.apply 1 ∈ (migrate true migsEx ⟨0, 0⟩).1 := by
    simp [migrate, migrateGo, migsEx]
  obtain ⟨_, _, hback, hset⟩ := h.2 1 hmem
  refine ⟨?_, hback, hset⟩
  have h1 := h.1
  simpa [migsEx, List.range'] using h1

theorem migrateGo_finalIdx {σ : Type} :
    ∀ (ms : List (σ → σ)) (idx : Nat) (s : σ),
      (migrateGo true ms idx s).2.2 = idx + ms.length := by
  intro ms
  induction ms with
  | nil => intro idx s; simp [migrateGo]
  | cons m rest ih =>
    intro idx s
    have := ih (idx + 1) (m s)
    simp only [migrateGo, List.length_cons]
    omega

/-- Claim C7: after a successful run, `nextMigrationIdx` equals the number
of migrations, so a second run has an empty pending slice: it produces no
events at all (in particular applies no migration) and leaves
`nextMigrationIdx` unchanged. -/
theorem migrate_idempotent {σ : Type} (migs : List (σ → σ))
    (st : MigState σ) (h : st.nextIdx ≤ migs.length) :
    (migrate true migs st).2.nextIdx = migs.length ∧
      (migrate true migs ((migrate true migs st).2)).1 = [] ∧
      (migrate true migs ((migrate true migs st).2)).2.nextIdx =
        (migrate true migs st).2.nextIdx := by
  have hfin : (migrate true migs st).2.nextIdx = migs.length := by
    have := migrateGo_finalIdx (migs.drop st.nextIdx) st.nextIdx st.store
    simp only [migrate]
    rw [this, List.length_drop]
    omega
  refine ⟨hfin, ?_, ?_⟩
  · have hdrop : migs.drop ((migrate true migs st).2).nextIdx = [] := by
      rw [hfin]
      exact List.drop_length migs
    conv_lhs => rw [migrate, hdrop]
    rfl
  · have hdrop : migs.drop ((migrate true migs st).2).nextIdx = [] := by
      rw [hfin]
      exact List.drop_length migs
    conv_lhs => rw [migrate, hdrop]
    rfl

/-- Witness for C7 on a concrete two-migration store. -/
theorem migrate_idempotent_witness :
    (migrate true migsEx ⟨0, 0⟩).2.nextIdx = 2 ∧
      (migrate true migsEx ((migrate true migsEx ⟨0, 0⟩).2)).1 = [] ∧
      (migrate true migsEx ((migrate true migsEx ⟨0, 0⟩).2)).2.nextIdx =
        (migrate true migsEx ⟨0, 0⟩).2.nextIdx :=
  migrate_idempotent migsEx ⟨0, 0⟩ (by decide)

/-! ### `AssetPath::get_next_available_path` (src/asset_path.rs lines 25–64)

The alternate path-revision loop.  Its candidate filename depends on the
loop counter only in the branch where the stem already contains a single
`_<integer>` suffix; in every other branch the candidate is the constant
`<stem>_1.<ext>`. -/

/-- A decimal digit's value, `none` for other characters. -/
def digitVal (c : Char) : Option Nat :=
  if 48 ≤ c.toNat ∧ c.toNat ≤ 57 then some (c.toNat - 48) else none

/-- Digits-only string to number (empty input fails). -/
def parseNatDigits (l : List Char) : Option Nat :=
  match l with
  | [] => none
  | _ =>
    l.foldl
      (fun acc c =>
        match acc, digitVal c with
        | some a, some d => some (10 * a + d)
        | _, _ => none)
      (some 0)

/-- Rust `str::parse::<i32>`: optional sign, then at least one digit.
(Overflow past the `i32` range is not modelled; the source only calls
`.is_ok()` on short numeric suffixes.) -/
def parseI32 (l : List Char) : Option Int :=
  match l with
  | '+' :: rest => (parseNatDigits rest).map (fun n => (n : Int))
  | '-' :: rest => (parseNatDigits rest).map (fun n => -(n : Int))
  | _ => (parseNatDigits l).map (fun n => (n : Int))

/-- The candidate filename built in one iteration of the loop, for the
current `counter` value. -/
def gnapNextFilename (firstPart ext : List Char) (counter : Nat) :
    List Char :=
  if firstPart.contains '_' then
    let nameParts := splitCh '_' firstPart
    if nameParts.length = 2 ∧ (parseI32 (nameParts.getD 1 [])).isSome then
      nameParts.headD [] ++ '_' :: (natRepr counter).data ++ '.' :: ext
    else
      firstPart ++ '_' :: '1' :: '.' :: ext
  else
    firstPart ++ '_' :: '1' :: '.' :: ext

/-- The loop of `get_next_available_path`, with fuel; `counter` starts
at 1 and is incremented whenever the candidate exists on disk. -/
def gnapLoop (firstPart ext dirPart : List Char) (assetsDir : String)
    (files : List String) : Nat → Nat → Option String
  | 0, _ => none
  | fuel + 1, counter =>
    let nextFilename := gnapNextFilename firstPart ext counter
    let nextPath :=
      if dirPart = [] then nextFilename else dirPart ++ '/' :: nextFilename
    if diskPath assetsDir (String.mk nextPath) ∈ files then
      gnapLoop firstPart ext dirPart assetsDir files fuel (counter + 1)
    else
      some (String.mk nextPath)

/-- Mirror of `get_next_available_path`: split the stored path into directory part,
stem and extension (defaulting to `png`), then run the loop. -/
def getNextAvailablePath (self assetsDir : String) (files : List String)
    (fuel : Nat) : Option String :=
  let filename := lastComponent self.data
  let dirPart := dirPartOf self.data
  let parts := splitCh '.' filename
  let firstPart := parts.headD []
  let ext := (parts.get? 1).getD "png".data
  gnapLoop firstPart ext dirPart assetsDir files fuel 1

/-- The stem (substring of the filename before the first `.`). -/
def stemOf (self : String) : List Char :=
  (splitCh '.' (lastComponent self.data)).headD []

/-- The single candidate path produced for a stem without underscore:
`<dir>/<stem>_1.<ext>`. -/
def gnapFixedCandidate (self : String) : String :=
  let filename := lastComponent self.data
  let dirPart := dirPartOf self.data
  let parts := splitCh '.' filename
  let firstPart := parts.headD []
  let ext := (parts.get? 1).getD "png".data
  let nextFilename := firstPart ++ '_' :: '1' :: '.' :: ext
  String.mk
    (if dirPart = [] then nextFilename else dirPart ++ '/' :: nextFilename)

/-- The constant candidate path assembled from stem, extension and
directory part. -/
def gnapConstPath (fp ext dp : List Char) : String :=
  String.mk
    (if dp = [] then fp ++ '_' :: '1' :: '.' :: ext
     else dp ++ '/' :: (fp ++ '_' :: '1' :: '.' :: ext))

theorem gnapLoop_const_none (fp ext dp : List Char)
    (assetsDir : String) (files : List String)
    (h : fp.contains '_' = false)
    (hmem : diskPath assetsDir (gnapConstPath fp ext dp) ∈ files) :
    ∀ fuel counter,
      gnapLoop fp ext dp assetsDir files fuel counter = none := by
  intro fuel
  induction fuel with
  | zero => intro counter; rfl
  | succ fuel ihf =>
    intro counter
    rw [gnapLoop]
    simp only [gnapNextFilename, h, Bool.false_eq_true, if_false]
    rw [if_pos (by simpa [gnapConstPath] using hmem)]
    exact ihf (counter + 1)

theorem gnapLoop_const_some (fp ext dp : List Char)
    (assetsDir : String) (files : List String)
    (h : fp.contains '_' = false)
    (hmem : diskPath assetsDir (gnapConstPath fp ext dp) ∉ files) :
    ∀ fuel counter,
      gnapLoop fp ext dp assetsDir files (fuel + 1) counter =
        some (gnapConstPath fp ext dp) := by
  intro fuel counter
  rw [gnapLoop]
  simp only [gnapNextFilename, h, Bool.false_eq_true, if_false]
  rw [if_neg (by simpa [gnapConstPath] using hmem)]
  simp [gnapConstPath]

/-- Claim C10: when the stem contains no underscore the loop builds the
same candidate `<stem>_1.<ext>` at every iteration — the counter is
unused in that branch — so the call returns that candidate when its file
does not exist, and no amount of fuel makes it terminate when the file
exists. -/
theorem gnap_no_underscore (self assetsDir : String) (files : List String)
    (h : (stemOf self).contains '_' = false) :
    (diskPath assetsDir (gnapFixedCandidate self) ∈ files →
        ∀ fuel, getNextAvailablePath self assetsDir files fuel = none) ∧
      (diskPath assetsDir (gnapFixedCandidate self) ∉ files →
        ∀ fuel, getNextAvailablePath self assetsDir files (fuel + 1) =
          some (gnapFixedCandidate self)) := by
  have hcand : gnapFixedCandidate self =
      gnapConstPath (stemOf self)
        (((splitCh '.' (lastComponent self.data)).get? 1).getD "png".data)
        (dirPartOf self.data) := rfl
  constructor
  · intro hmem fuel
    rw [hcand] at hmem
    exact gnapLoop_const_none (stemOf self) _ _ assetsDir files h hmem
      fuel 1
  · intro hmem fuel
    rw [hcand] at hmem ⊢
    exact gnapLoop_const_some (stemOf self) _ _ assetsDir files h hmem
      fuel 1

/-- Witness for C10 with stem `tmp`: with `scans/tmp_1.png` on disk the
call diverges (every fuel returns `none`); with an empty directory it
returns `scans/tmp_1.png`. -/
theorem gnap_no_underscore_witness :
    getNextAvailablePath "scans/tmp.png" "assets"
        ["assets/scans/tmp_1.png"] 7 = none ∧
      getNextAvailablePath "scans/tmp.png" "assets" [] 1 =
        some ("scans/tmp_1.png") := by
  constructor
  · exact (gnap_no_underscore "scans/tmp.png" "assets"
      ["assets/scans/tmp_1.png"] (by decide)).1 (by decide) 7
  · have h := (gnap_no_underscore "scans/tmp.png" "assets" []
      (by decide)).2 (by decide) 0
    rw [h]
    decide

end ScanServ
